import Mathlib

/-
Verification of the haplodemo scene model (scene.py and demo.py) against its
natural-language specification.  Python classes are shallowly embedded as Lean
structures, stateful methods as explicit state-passing functions, signal
emissions as explicit output lists, and fallible operations as Option-valued
functions.  Colors are modelled as strings (the source passes color strings
such as "#ff0000" around), palette lookups as functions from index to color.
-/

set_option autoImplicit false

namespace Haplodemo

/-! ## Edge styling (GraphicsScene.styleEdges, scene.py lines 292-304) -/

/-- EdgeStyle enumeration imported by scene.py from items.py; the six members
named in the source are Bubbles, Bars, Plain, DotsWithText, Collapsed and
PlainWithText. -/
inductive EdgeStyle where
  | Bubbles
  | Bars
  | Plain
  | DotsWithText
  | Collapsed
  | PlainWithText
deriving DecidableEq, Repr

/-- The dict literal in styleEdges mapping a default style to its collapsed
counterpart; indexing a Python dict with a missing key raises KeyError, which
is modelled by returning none. -/
def styleCutoffLookup : EdgeStyle → Option EdgeStyle
  | .Bubbles => some .DotsWithText
  | .Bars => some .Collapsed
  | .Plain => some .PlainWithText
  | _ => none

/-- Style chosen for one edge inside the loop of styleEdges: the source first
replaces a falsy cutoff (0) by infinity, then tests segments <= cutoff. -/
def edgeStyleChoice (style_default style_cutoff : EdgeStyle) (cutoff segments : Nat) : EdgeStyle :=
  if cutoff = 0 then style_default
  else if segments ≤ cutoff then style_default
  else style_cutoff

/-- GraphicsScene.styleEdges: the collapsed-counterpart dict lookup happens
before the edge loop, so an unmapped default style raises (none) with no edge
styled; otherwise every edge (represented by its segment count) receives the
chosen style. -/
def styleEdges (style_default : EdgeStyle) (cutoff : Nat) (edges : List Nat) :
    Option (List EdgeStyle) :=
  match styleCutoffLookup style_default with
  | none => none
  | some style_cutoff =>
      some (edges.map (fun segments => edgeStyleChoice style_default style_cutoff cutoff segments))

/-! ## Division list model (DivisionListModel, scene.py lines 31-112) -/

/-- Palette: external collaborator (palettes.py is outside the core per the
spec); provides an indexed color function, a default fallback color and a
highlight accent color. -/
structure Palette where
  color : Nat → String
  default : String
  highlight : String

/-- Division dataclass from scene.py. -/
structure Division where
  key : String
  color : String
deriving DecidableEq, Repr

/-- State of DivisionListModel: the palette captured at construction
(self._palette, written only in init), the current default color
(self._default_color) and the ordered division list. -/
structure DivisionListModel where
  palette : Palette
  default_color : String
  divisions : List Division

/-- DivisionListModel.set_divisions_from_keys: rebuilds the division list by
zipping keys with the construction palette by index
([Division(keys[i], palette[i]) for i in range(len(keys))]). -/
def set_divisions_from_keys (st : DivisionListModel) (keys : List String) : DivisionListModel :=
  { st with divisions :=
      (List.range keys.length).map (fun i => ⟨keys.getD i "", st.palette.color i⟩) }

/-- DivisionListModel.set_palette: updates the default color and re-colors
every division by index from the new palette; keys and the stored
construction palette are untouched (the source never reassigns
self._palette). -/
def DivisionListModel.set_palette (st : DivisionListModel) (p : Palette) : DivisionListModel :=
  { st with
      default_color := p.default,
      divisions := (List.range st.divisions.length).map
        (fun i => ⟨(st.divisions.getD i ⟨"", ""⟩).key, p.color i⟩) }

/-- Python dict lookup for the comprehension-built dict
\x7bd.key: d.color for d in divisions\x7d: on duplicate keys the later entry
overwrites the earlier, so lookup returns the last binding. -/
def dictGet : List (String × String) → String → Option String
  | [], _ => none
  | (k, v) :: rest, key =>
      match dictGet rest key with
      | some v2 => some v2
      | none => if k = key then some v else none

/-- ColorMap: the value returned by get_color_map.  The explicit entries are a
snapshot (a fresh dict), but the defaultdict default factory is the closure
(lambda: self._default_color), which reads the model's current default color
at lookup time; lookup therefore takes the model state as an argument. -/
structure ColorMap where
  entries : List (String × String)

/-- DivisionListModel.get_color_map: builds the entry dict from the current
divisions and wraps it in a defaultdict whose factory reads
self._default_color. -/
def getColorMap (st : DivisionListModel) : ColorMap :=
  ⟨st.divisions.map (fun d => (d.key, d.color))⟩

/-- Lookup on a ColorMap, faithful to defaultdict: a present key returns its
stored color; a missing key invokes the factory (reading the model's current
default color), stores the result under the key, and returns it. -/
def colorMapLookup (cm : ColorMap) (st : DivisionListModel) (k : String) : String × ColorMap :=
  match dictGet cm.entries k with
  | some v => (v, cm)
  | none => (st.default_color, ⟨cm.entries ++ [(k, st.default_color)]⟩)

/-- Modelled from the spec: QtGui.QColor.isValidColor is external Qt code
outside this repository; the spec (External Interfaces) fixes the accepted
format as a 6-hex-digit string with a leading marker, so validity here is a
leading number sign followed by exactly six hexadecimal digits. -/
def isValidColorModel (s : String) : Bool :=
  match s.data with
  | '#' :: rest => rest.length = 6 && rest.all (fun c =>
      c.isDigit || ('a' ≤ c && c ≤ 'f') || ('A' ≤ c && c ≤ 'F'))
  | _ => false

/-- Python str.strip(): drop whitespace from both ends. -/
def stripString (s : String) : String :=
  ⟨((s.data.dropWhile Char.isWhitespace).reverse.dropWhile Char.isWhitespace).reverse⟩

/-- Python str.startswith on the number-sign marker. -/
def startsWithHash (s : String) : Bool :=
  match s.data with
  | '#' :: _ => true
  | _ => false

/-- Normalization performed by DivisionListModel.setData: strip the input,
then prepend the marker when missing. -/
def normalizeColor (value : String) : String :=
  let color := stripString value
  if startsWithHash color then color else "#" ++ color

/-- Result of setData: the returned boolean, the model state after the call,
and the colorMapChanged payloads emitted during the call (dataChanged is
connected to handle_data_changed, which synchronously emits the current color
map). -/
structure SetDataResult where
  ok : Bool
  model : DivisionListModel
  emitted : List ColorMap

/-- DivisionListModel.setData on the edit role: rejects an out-of-range row,
normalizes the value, rejects an invalid color with no mutation, otherwise
updates the row's division color and emits the new color map before
returning. -/
def setData (st : DivisionListModel) (row : Nat) (value : String) : SetDataResult :=
  if h : row < st.divisions.length then
    let color := normalizeColor value
    if isValidColorModel color then
      let d := st.divisions.get ⟨row, h⟩
      let st2 := { st with divisions := st.divisions.set row { d with color := color } }
      ⟨true, st2, [getColorMap st2]⟩
    else ⟨false, st, []⟩
  else ⟨false, st, []⟩

/-! ## Settings hub (Settings, scene.py lines 115-137) -/

/-- Settings state: the fields of the property bag that take part in the
palette cascade. -/
structure Settings where
  palette : Palette
  divisions : DivisionListModel
  highlight_color : String

/-- Modelled from the spec: this is the write to the Settings palette
property; the Property/Binder publish-on-write machinery lives in the
external itaxotools.common.bindings library, and per the spec a property
write synchronously notifies every bound subscriber before the setter
returns.  Settings.init declares exactly two bindings on the palette
property: divisions.set_palette, and highlight_color via
(lambda x: x.highlight); both therefore run as side effects of this one
write. -/
def Settings.write_palette (s : Settings) (p : Palette) : Settings :=
  { s with
      palette := p,
      divisions := s.divisions.set_palette p,
      highlight_color := p.highlight }

/-! ## Hit testing (GraphicsScene.getItemAtPos, scene.py lines 219-244) -/

/-- Point in scene coordinates (QPointF / QVector2D), with rational
coordinates. -/
structure Pt where
  x : ℚ
  y : ℚ
deriving DecidableEq, Repr

/-- Candidate item under the query position as produced by
QGraphicsScene.items(pos) in top-most-first stacking order.  Node is a
subclass of Vertex in items.py, so the vertex constructor covers nodes; an
edge carries its two endpoint positions already mapped to the scene. -/
inductive SceneItem where
  | vertex (id : Nat)
  | label (id : Nat)
  | edge (id : Nat) (p1 p2 : Pt)
deriving DecidableEq, Repr

def SceneItem.isEdge : SceneItem → Bool
  | .edge _ _ _ => true
  | _ => false

def SceneItem.isVertex : SceneItem → Bool
  | .vertex _ => true
  | _ => false

def SceneItem.isLabel : SceneItem → Bool
  | .label _ => true
  | _ => false

/-- Squared perpendicular distance from a point to the infinite line through
p1 and p2, as computed by point.distanceToLine(p1, line.unitVector()):
the cross product of (point - p1) with the unit direction; squaring replaces
the square root, and a < b iff a^2 < b^2 for nonnegative distances, so every
comparison made by the source is preserved.  When the endpoints coincide the
direction is null and QVector2D.distanceToLine documents the result as the
distance to p1. -/
def perpDistSq (p p1 p2 : Pt) : ℚ :=
  if p1 = p2 then (p.x - p1.x) * (p.x - p1.x) + (p.y - p1.y) * (p.y - p1.y)
  else
    ((p.x - p1.x) * (p2.y - p1.y) - (p.y - p1.y) * (p2.x - p1.x)) *
      ((p.x - p1.x) * (p2.y - p1.y) - (p.y - p1.y) * (p2.x - p1.x)) /
      ((p2.x - p1.x) * (p2.x - p1.x) + (p2.y - p1.y) * (p2.y - p1.y))

/-- Squared distance of the query point to an item's line when the item is an
edge (0 for non-edges, never used). -/
def edist (pt : Pt) : SceneItem → ℚ
  | .edge _ p1 p2 => perpDistSq pt p1 p2
  | _ => 0

/-- An item on which the loop of getItemAtPos returns immediately: any
vertex, or any label when labels are not ignored. -/
def isHit (ignore_labels : Bool) (i : SceneItem) : Bool :=
  i.isVertex || (i.isLabel && !ignore_labels)

/-- The loop of getItemAtPos: walks the stacking-ordered candidates carrying
the closest edge so far (none plays the role of the initial infinite
distance); returns at the first vertex, at the first label when labels are
not ignored, and otherwise falls through to the closest edge. -/
def hitScan (il ie : Bool) (pt : Pt) :
    List SceneItem → Option (SceneItem × ℚ) → Option SceneItem
  | [], closest => closest.map Prod.fst
  | i :: rest, closest =>
    match i with
    | .vertex v => some (.vertex v)
    | .label l => if il then hitScan il ie pt rest closest else some (.label l)
    | .edge e p1 p2 =>
      if ie then hitScan il ie pt rest closest
      else
        let d := perpDistSq pt p1 p2
        match closest with
        | none => hitScan il ie pt rest (some (.edge e p1 p2, d))
        | some (c, dc) =>
          if d < dc then hitScan il ie pt rest (some (.edge e p1 p2, d))
          else hitScan il ie pt rest (some (c, dc))

/-- GraphicsScene.getItemAtPos: resolves the ignore_labels argument (the
source turns a missing argument into not settings.label_movement) and runs
the scan over the stacking-ordered candidates. -/
def getItemAtPos (label_movement : Bool) (pt : Pt) (items : List SceneItem)
    (ignore_edges : Bool) (ignore_labels : Option Bool) : Option SceneItem :=
  let il := ignore_labels.getD (!label_movement)
  hitScan il ignore_edges pt items none

/-! ## Child topology (GraphicsScene.add_child, scene.py lines 350-354) -/

/-- Edge object as constructed by create_edge(parent, child, segments). -/
structure EdgeObj where
  node1 : Nat
  node2 : Nat
  segments : Nat
deriving DecidableEq, Repr

/-- Scene topology state touched by add_child: the parent relation, the
per-vertex child adjacency (Vertex.edges in items.py), and the live object
sets maintained through addItem. -/
structure TreeScene where
  parentOf : Nat → Option Nat
  childAdj : Nat → List (Nat × EdgeObj)
  liveVertices : List Nat
  liveEdges : List EdgeObj

/-- Modelled from the spec: Vertex.addChild is defined in items.py, which is
not under src (scene.py only calls it); per the spec it registers the
(child, edge) pair under the parent's child adjacency and sets the child's
parent, and it is rejected with no mutation when the child already has a
parent (tree invariant) or when parent equals child. -/
def vertexAddChild (s : TreeScene) (parent child : Nat) (edge : EdgeObj) : Option TreeScene :=
  if parent = child then none
  else
    match s.parentOf child with
    | some _ => none
    | none => some
        { s with
            parentOf := fun v => if v = child then some parent else s.parentOf v,
            childAdj := fun v =>
              if v = parent then (child, edge) :: s.childAdj v else s.childAdj v }

/-- GraphicsScene.add_child: creates the edge, registers it through the
parent's addChild, then adds the edge and the child to the scene's live
object set; when addChild is rejected the addItem calls never run and the
scene is unchanged. -/
def add_child (s : TreeScene) (parent child segments : Nat) : Option TreeScene :=
  let edge : EdgeObj := ⟨parent, child, segments⟩
  (vertexAddChild s parent child edge).map (fun s2 =>
    { s2 with liveEdges := edge :: s2.liveEdges, liveVertices := child :: s2.liveVertices })

/-! ## Export and transient mouse state (GraphicsView, scene.py 418-458) -/

/-- Transient interaction state of the scene: the hovered item tracked by
GraphicsScene.hovered_item, and the Qt mouse grabber installed by
item.grabMouse() in mousePressEvent. -/
structure MouseState where
  hovered : Option Nat
  grabbed : Option Nat
deriving DecidableEq, Repr

/-- GraphicsScene.mouseLeaveEvent: when an item is hovered, delivers
hoverLeaveEvent to it (a visual-state change on the item, not tracked here)
and resets hovered_item to None; the mouse grabber is not touched. -/
def mouseLeaveEvent (st : MouseState) : MouseState :=
  if st.hovered.isSome then { st with hovered := none } else st

/-- GraphicsView.clear_mouse: forwards a synthetic leave event to the
scene. -/
def clear_mouse (st : MouseState) : MouseState :=
  mouseLeaveEvent st

/-- GraphicsView.render via a QPainter: paints the scene onto the export
surface; it reads the scene and does not modify hovered_item or the mouse
grabber. -/
def renderView (st : MouseState) : MouseState := st

/-- GraphicsView.export_svg: clear_mouse, then set up the SVG generator and
render. -/
def export_svg (st : MouseState) : MouseState :=
  renderView (clear_mouse st)

/-- GraphicsView.export_pdf: clear_mouse, then render into the PDF writer. -/
def export_pdf (st : MouseState) : MouseState :=
  renderView (clear_mouse st)

/-- GraphicsView.export_png: clear_mouse, then render into the pixmap. -/
def export_png (st : MouseState) : MouseState :=
  renderView (clear_mouse st)

/-! ## Hover / press / highlighted-edge state machine (demo.py Scene) -/

/-- Item classes dispatched on by isinstance in demo.py: Vertex, Node (a
Vertex subclass is not assumed; demo.py tests the classes separately),
Label, and the parallel New classes from items_new.py. -/
inductive ItemKind where
  | vertex
  | vertexNew
  | node
  | nodeNew
  | label
  | labelNew
deriving DecidableEq, Repr

def ItemKind.isLabelKind : ItemKind → Bool
  | .label => true
  | .labelNew => true
  | _ => false

/-- Static item environment for the demo scene: each item id has a class, an
optional parentItem, and each vertex a child-to-edge adjacency dict
(Vertex.edges); edgeOf returns the edge id stored under the child.  A label
always has an owning parent item in the demo scenes. -/
structure ItemEnv where
  kind : Nat → ItemKind
  parent : Nat → Option Nat
  edgeOf : Nat → Nat → Option Nat

/-- Scene.get_item_edge (demo.py lines 360-367): None resolves to None, a
label is replaced by its owning item, and when that item's parentItem is a
Vertex the connecting edge from the parent's edges dict is returned;
otherwise None. -/
def get_item_edge (env : ItemEnv) (item : Option Nat) : Option Nat :=
  match item with
  | none => none
  | some i0 =>
    match (if (env.kind i0).isLabelKind then env.parent i0 else some i0) with
    | none => none
    | some j =>
      match env.parent j with
      | some p => if env.kind p = ItemKind.vertex then env.edgeOf p j else none
      | none => none

/-- Mutable state of the demo Scene: hovered_item, pressed_item, the
lighlighted_edge attribute (spelling from the source), and each edge's
state_highlighted flag. -/
structure DemoScene where
  hovered : Option Nat
  pressed : Option Nat
  highlighted : Option Nat
  edgeFlag : Nat → Bool

/-- Scene.set_highlighted_edge: clears state_highlighted on the previous
edge if any, stores the new edge, and sets its flag if any. -/
def set_highlighted_edge (st : DemoScene) (edge : Option Nat) : DemoScene :=
  { st with
      highlighted := edge,
      edgeFlag := fun e =>
        match edge with
        | some nw =>
          if e = nw then true
          else
            match st.highlighted with
            | some old => if e = old then false else st.edgeFlag e
            | none => st.edgeFlag e
        | none =>
          match st.highlighted with
          | some old => if e = old then false else st.edgeFlag e
          | none => st.edgeFlag e }

/-- Scene.set_hovered_item: updates hovered_item (the per-item visual state
updates are orthogonal and not tracked) and, only when no item is pressed,
re-derives the highlighted edge from the new hovered item. -/
def set_hovered_item (env : ItemEnv) (st : DemoScene) (item : Option Nat) : DemoScene :=
  let st1 := { st with hovered := item }
  if st1.pressed = none then set_highlighted_edge st1 (get_item_edge env item) else st1

/-- Scene.set_pressed_item: updates pressed_item and unconditionally
re-derives the highlighted edge from the new pressed item (including when it
is None, as on mouse release). -/
def set_pressed_item (env : ItemEnv) (st : DemoScene) (item : Option Nat) : DemoScene :=
  let st1 := { st with pressed := item }
  set_highlighted_edge st1 (get_item_edge env item)

/-- Transitions that reach the two setters: customHoverEvent and
mouseLeaveEvent call set_hovered_item, mousePressEvent and mouseReleaseEvent
call set_pressed_item. -/
inductive DemoStep where
  | hover (item : Option Nat)
  | press (item : Option Nat)

def demoStepRun (env : ItemEnv) (st : DemoScene) : DemoStep → DemoScene
  | .hover item => set_hovered_item env st item
  | .press item => set_pressed_item env st item

def demoRun (env : ItemEnv) (st : DemoScene) : List DemoStep → DemoScene
  | [] => st
  | step :: rest => demoRun env (demoStepRun env st step) rest

/-- Initial demo scene state: nothing hovered, pressed or highlighted. -/
def demoInit : DemoScene :=
  ⟨none, none, none, fun _ => false⟩

/-! ## Auxiliary definitions for the statements and witnesses -/

/-- Edge-candidate minimization extracted from the loop of getItemAtPos:
folds the stacking-ordered candidates, keeping the strictly closer edge
(ties keep the earlier, topmost one) and skipping non-edges. -/
def foldMin (pt : Pt) : List SceneItem → Option (SceneItem × ℚ) → Option (SceneItem × ℚ)
  | [], acc => acc
  | .edge e p1 p2 :: rest, none =>
      foldMin pt rest (some (.edge e p1 p2, perpDistSq pt p1 p2))
  | .edge e p1 p2 :: rest, some (c, dc) =>
      if perpDistSq pt p1 p2 < dc then foldMin pt rest (some (.edge e p1 p2, perpDistSq pt p1 p2))
      else foldMin pt rest (some (c, dc))
  | .vertex _ :: rest, acc => foldMin pt rest acc
  | .label _ :: rest, acc => foldMin pt rest acc

/-- Invariant tying each edge's state_highlighted flag to the scene's
lighlighted_edge attribute. -/
def edgeFlagInv (st : DemoScene) : Prop :=
  ∀ e : Nat, st.edgeFlag e = true ↔ st.highlighted = some e

/-- Concrete demo item environment: item 0 is a vertex whose parentItem is
vertex 1, and vertex 1 stores edge 7 under child 0 in its edges dict. -/
def demoEnv : ItemEnv :=
  ⟨fun _ => .vertex,
   fun i => if i = 0 then some 1 else none,
   fun p c => if p = 1 then (if c = 0 then some 7 else none) else none⟩

/-- The concrete model state used by several witnesses. -/
def witnessModel : DivisionListModel :=
  ⟨⟨fun _ => "#000000", "#000001", "#000002"⟩, "#000001", []⟩

/-- The concrete palette used by the witness of get_color_map_total_spec. -/
def witnessPalette : Palette :=
  ⟨fun i => if i = 0 then "#c00000" else "#c10000", "#d00000", "#e00000"⟩

/-! ## Theorems -/

/-- C4: for styleEdges with a default style among Bubbles, Bars and Plain,
every edge with segment count at most the cutoff receives the default style,
every edge whose segment count exceeds the cutoff receives the style-specific
collapsed counterpart (Bubbles to DotsWithText, Bars to Collapsed, Plain to
PlainWithText), a cutoff of 0 means no cutoff so every edge receives the
default style; in particular with Bubbles and cutoff 3 an edge with 3
segments gets Bubbles and one with 4 segments gets DotsWithText. -/
theorem styleEdges_cutoff_spec :
    (∀ sd csd : EdgeStyle,
      (sd = .Bubbles ∧ csd = .DotsWithText) ∨ (sd = .Bars ∧ csd = .Collapsed) ∨
        (sd = .Plain ∧ csd = .PlainWithText) →
      ∀ (cutoff : Nat) (edges : List Nat), ∃ out : List EdgeStyle,
        styleEdges sd cutoff edges = some out ∧ out.length = edges.length ∧
        ∀ i : Nat, i < edges.length →
          (cutoff = 0 → out.getD i csd = sd) ∧
          (0 < cutoff → edges.getD i 0 ≤ cutoff → out.getD i csd = sd) ∧
          (0 < cutoff → cutoff < edges.getD i 0 → out.getD i csd = csd)) ∧
    styleEdges .Bubbles 3 [3, 4] = some [.Bubbles, .DotsWithText] := by
  constructor
  · intro sd csd hpair cutoff edges
    have hlook : styleCutoffLookup sd = some csd := by
      rcases hpair with ⟨h1, h2⟩ | ⟨h1, h2⟩ | ⟨h1, h2⟩ <;> subst h1 <;> subst h2 <;> rfl
    refine ⟨edges.map (fun seg => edgeStyleChoice sd csd cutoff seg), ?_, ?_, ?_⟩
    · simp [styleEdges, hlook]
    · simp
    · intro i hi
      have hgd : (edges.map (fun seg => edgeStyleChoice sd csd cutoff seg)).getD i csd =
          edgeStyleChoice sd csd cutoff (edges.getD i 0) := by
        have hi2 : i < (edges.map (fun seg => edgeStyleChoice sd csd cutoff seg)).length := by
          simpa using hi
        rw [List.getD_eq_getElem _ _ hi2, List.getD_eq_getElem _ _ hi]
        simp
      refine ⟨?_, ?_, ?_⟩
      · intro h0
        rw [hgd]
        simp [edgeStyleChoice, h0]
      · intro hpos hle
        rw [hgd]
        simp only [edgeStyleChoice]
        rw [if_neg (by omega), if_pos hle]
      · intro hpos hlt
        rw [hgd]
        simp only [edgeStyleChoice]
        rw [if_neg (by omega), if_neg (by omega)]
  · rfl

/-- Witness for styleEdges_cutoff_spec: instantiated for Bubbles with cutoff
3 on the two-edge list with segment counts 3 and 4. -/
theorem styleEdges_cutoff_spec_witness :
    ∃ out : List EdgeStyle,
      styleEdges .Bubbles 3 [3, 4] = some out ∧ out.length = 2 ∧
      ∀ i : Nat, i < 2 →
        (3 = 0 → out.getD i .DotsWithText = .Bubbles) ∧
        (0 < 3 → [3, 4].getD i 0 ≤ 3 → out.getD i .DotsWithText = .Bubbles) ∧
        (0 < 3 → 3 < [3, 4].getD i 0 → out.getD i .DotsWithText = .DotsWithText) := by
  have h := styleEdges_cutoff_spec.1 .Bubbles .DotsWithText (Or.inl ⟨rfl, rfl⟩) 3 [3, 4]
  simpa using h

/-- C10: styleEdges with a default style outside Bubbles, Bars and Plain
(DotsWithText, Collapsed or PlainWithText) fails at the collapsed-counterpart
dict lookup, which the source evaluates before iterating the edges, so no
edge style is produced or mutated. -/
theorem styleEdges_invalid_default_spec :
    ∀ sd : EdgeStyle,
      sd = .DotsWithText ∨ sd = .Collapsed ∨ sd = .PlainWithText →
      (styleCutoffLookup sd = none ∧
       ∀ (cutoff : Nat) (edges : List Nat), styleEdges sd cutoff edges = none) := by
  intro sd h
  rcases h with h | h | h <;> subst h <;> exact ⟨rfl, fun _ _ => rfl⟩

/-- Witness for styleEdges_invalid_default_spec: DotsWithText as default
style fails on a concrete one-edge scene. -/
theorem styleEdges_invalid_default_spec_witness :
    styleCutoffLookup .DotsWithText = none ∧
      ∀ (cutoff : Nat) (edges : List Nat), styleEdges .DotsWithText cutoff edges = none :=
  styleEdges_invalid_default_spec .DotsWithText (Or.inl rfl)

/-- C6 counterexample: the claim says the grabbed item is None after every
export call, but clear_mouse only routes a leave event to the scene, which
resets hovered_item and never releases the mouse grabber; exporting from a
state with item 1 grabbed leaves item 1 grabbed. -/
theorem export_grab_counterexample :
    (export_svg ⟨some 0, some 1⟩).grabbed = some 1 ∧ some 1 ≠ (none : Option Nat) := by
  exact ⟨rfl, by decide⟩

/-- C6 amended: after each of export_svg, export_pdf and export_png the
scene's hovered item is None regardless of the pre-export state, while the
grabbed item is left unchanged (the export path clears hover only). -/
theorem export_clears_hover_spec :
    ∀ st : MouseState,
      (export_svg st).hovered = none ∧ (export_svg st).grabbed = st.grabbed ∧
      (export_pdf st).hovered = none ∧ (export_pdf st).grabbed = st.grabbed ∧
      (export_png st).hovered = none ∧ (export_png st).grabbed = st.grabbed := by
  intro st
  cases h : st.hovered <;>
    simp [export_svg, export_pdf, export_png, clear_mouse, renderView, mouseLeaveEvent, h]

/-- C7: a single write to the Settings palette property synchronously
re-derives the highlight color as the new palette's highlight accent and
re-colors every division by index from the new palette (with the default
fallback updated), all as side effects of the one write, reflected in the
state returned by the setter. -/
theorem settings_palette_cascade_spec :
    ∀ (s : Settings) (p : Palette),
      (Settings.write_palette s p).palette = p ∧
      (Settings.write_palette s p).highlight_color = p.highlight ∧
      (Settings.write_palette s p).divisions.default_color = p.default ∧
      (Settings.write_palette s p).divisions.divisions.length = s.divisions.divisions.length ∧
      ∀ i : Nat, i < s.divisions.divisions.length →
        (Settings.write_palette s p).divisions.divisions.getD i ⟨"", ""⟩ =
          ⟨(s.divisions.divisions.getD i ⟨"", ""⟩).key, p.color i⟩ := by
  intro s p
  refine ⟨rfl, rfl, rfl, by simp [Settings.write_palette, DivisionListModel.set_palette], ?_⟩
  intro i hi
  simp only [Settings.write_palette, DivisionListModel.set_palette]
  have hi2 : i < ((List.range s.divisions.divisions.length).map
      (fun j => (⟨(s.divisions.divisions.getD j ⟨"", ""⟩).key, p.color j⟩ : Division))).length := by
    simpa using hi
  rw [List.getD_eq_getElem _ _ hi2]
  simp

/-- Witness for settings_palette_cascade_spec: a one-division settings state
written with a concrete palette; the division is re-colored and the
highlight and default colors re-derived. -/
theorem settings_palette_cascade_spec_witness :
    (Settings.write_palette
        ⟨⟨fun _ => "#000000", "#000001", "#000002"⟩,
         ⟨⟨fun _ => "#000000", "#000001", "#000002"⟩, "#000001", [⟨"X", "#000000"⟩]⟩,
         "#000002"⟩
        ⟨fun i => if i = 0 then "#111111" else "#222222", "#333333", "#444444"⟩).palette.default
        = "#333333" ∧
    (0 : Nat) < 1 ∧
    (Settings.write_palette
        ⟨⟨fun _ => "#000000", "#000001", "#000002"⟩,
         ⟨⟨fun _ => "#000000", "#000001", "#000002"⟩, "#000001", [⟨"X", "#000000"⟩]⟩,
         "#000002"⟩
        ⟨fun i => if i = 0 then "#111111" else "#222222", "#333333", "#444444"⟩).divisions.divisions.getD 0 ⟨"", ""⟩
        = ⟨"X", "#111111"⟩ := by
  refine ⟨rfl, by decide, ?_⟩
  have h := (settings_palette_cascade_spec
      ⟨⟨fun _ => "#000000", "#000001", "#000002"⟩,
       ⟨⟨fun _ => "#000000", "#000001", "#000002"⟩, "#000001", [⟨"X", "#000000"⟩]⟩,
       "#000002"⟩
      ⟨fun i => if i = 0 then "#111111" else "#222222", "#333333", "#444444"⟩).2.2.2.2 0
      (by decide)
  simpa using h

/-- C3: add_child creates the parent-to-child edge with the given segment
count, registers it under the parent's child adjacency and adds both child
and edge to the live object set; it is rejected (returning none, so the
caller's state is untouched) when the child already has a parent or when
parent equals child, and in particular a second add_child with a different
parent fails and preserves the original parent relation. -/
theorem add_child_spec :
    (∀ (s : TreeScene) (parent child segments : Nat),
      parent ≠ child → s.parentOf child = none →
      ∃ s2 : TreeScene, add_child s parent child segments = some s2 ∧
        (child, (⟨parent, child, segments⟩ : EdgeObj)) ∈ s2.childAdj parent ∧
        s2.parentOf child = some parent ∧
        (⟨parent, child, segments⟩ : EdgeObj) ∈ s2.liveEdges ∧
        child ∈ s2.liveVertices) ∧
    (∀ (s : TreeScene) (parent child segments p : Nat),
      s.parentOf child = some p → add_child s parent child segments = none) ∧
    (∀ (s : TreeScene) (v segments : Nat), add_child s v v segments = none) ∧
    (∀ (s : TreeScene) (parent child segments : Nat) (s2 : TreeScene),
      add_child s parent child segments = some s2 →
      ∀ parent2 segments2 : Nat,
        add_child s2 parent2 child segments2 = none ∧ s2.parentOf child = some parent) := by
  have hreg : ∀ (s : TreeScene) (parent child segments : Nat),
      parent ≠ child → s.parentOf child = none →
      add_child s parent child segments = some
        { parentOf := fun v => if v = child then some parent else s.parentOf v,
          childAdj := fun v =>
            if v = parent then (child, (⟨parent, child, segments⟩ : EdgeObj)) :: s.childAdj v
            else s.childAdj v,
          liveVertices := child :: s.liveVertices,
          liveEdges := (⟨parent, child, segments⟩ : EdgeObj) :: s.liveEdges } := by
    intro s parent child segments hne hnp
    simp [add_child, vertexAddChild, hne, hnp]
  have hfail : ∀ (s : TreeScene) (parent child segments p : Nat),
      s.parentOf child = some p → add_child s parent child segments = none := by
    intro s parent child segments p hp
    simp [add_child, vertexAddChild, hp]
  refine ⟨?_, hfail, ?_, ?_⟩
  · intro s parent child segments hne hnp
    refine ⟨_, hreg s parent child segments hne hnp, ?_, ?_, ?_, ?_⟩
    · simp
    · simp
    · simp
    · simp
  · intro s v segments
    simp [add_child, vertexAddChild]
  · intro s parent child segments s2 h parent2 segments2
    have hps2 : s2.parentOf child = some parent := by
      by_cases hne : parent = child
      · simp [add_child, vertexAddChild, hne] at h
      · cases hnp : s.parentOf child with
        | some p => rw [hfail s parent child segments p hnp] at h; cases h
        | none =>
          rw [hreg s parent child segments hne hnp] at h
          cases h
          simp
    exact ⟨hfail s2 parent2 child segments2 parent hps2, hps2⟩

/-- Witness for add_child_spec: on a scene with a single live vertex 0 and no
parent relation, add_child 0 1 succeeds and registers the edge, a
re-parenting add_child 2 1 then fails, and add_child 0 0 is a self-loop
rejection. -/
theorem add_child_spec_witness :
    (∃ s2 : TreeScene,
      add_child ⟨fun _ => none, fun _ => [], [0], []⟩ 0 1 2 = some s2 ∧
        (1, (⟨0, 1, 2⟩ : EdgeObj)) ∈ s2.childAdj 0 ∧
        s2.parentOf 1 = some 0 ∧
        (⟨0, 1, 2⟩ : EdgeObj) ∈ s2.liveEdges ∧
        1 ∈ s2.liveVertices) ∧
    (∀ s2 : TreeScene,
      add_child ⟨fun _ => none, fun _ => [], [0], []⟩ 0 1 2 = some s2 →
        add_child s2 2 1 1 = none ∧ s2.parentOf 1 = some 0) ∧
    add_child ⟨fun _ => none, fun _ => [], [0], []⟩ 0 0 1 = none := by
  refine ⟨add_child_spec.1 ⟨fun _ => none, fun _ => [], [0], []⟩ 0 1 2 (by decide) rfl,
    ?_, add_child_spec.2.2.1 ⟨fun _ => none, fun _ => [], [0], []⟩ 0 1⟩
  intro s2 h
  exact add_child_spec.2.2.2 ⟨fun _ => none, fun _ => [], [0], []⟩ 0 1 2 s2 h 2 1

/-- Dict lookup misses when no pair carries the key. -/
theorem dictGet_eq_none_of_not_mem :
    ∀ (l : List (String × String)) (k : String),
      (∀ p ∈ l, p.1 ≠ k) → dictGet l k = none := by
  intro l
  induction l with
  | nil => intro k _; rfl
  | cons hd tl ih =>
    intro k h
    have htl : dictGet tl k = none := ih k (fun p hp => h p (List.mem_cons_of_mem hd hp))
    have hhd : hd.1 ≠ k := h hd (List.mem_cons_self hd tl)
    simp [dictGet, htl, hhd]

/-- Dict lookup on an association list with pairwise-distinct keys returns
the value stored with the key. -/
theorem dictGet_nodup_mem :
    ∀ (l : List (String × String)) (k v : String),
      (l.map Prod.fst).Nodup → (k, v) ∈ l → dictGet l k = some v := by
  intro l
  induction l with
  | nil => intro k v _ h; cases h
  | cons hd tl ih =>
    intro k v hnd hmem
    rw [List.map_cons, List.nodup_cons] at hnd
    rcases List.mem_cons.mp hmem with heq | htl
    · subst heq
      have hnone : dictGet tl k = none := by
        apply dictGet_eq_none_of_not_mem
        intro p hp hpk
        have hmm : p.1 ∈ tl.map Prod.fst := List.mem_map_of_mem Prod.fst hp
        rw [hpk] at hmm
        exact hnd.1 hmm
      simp [dictGet, hnone]
    · have hsome : dictGet tl k = some v := ih k v hnd.2 htl
      simp [dictGet, hsome]

/-- Division list after set_divisions_from_keys followed by set_palette:
keys from the key list, colors from the new palette by index. -/
theorem divisions_after_keys_palette (st : DivisionListModel) (K : List String) (P : Palette) :
    ((set_divisions_from_keys st K).set_palette P).divisions =
      (List.range K.length).map (fun i => (⟨K.getD i "", P.color i⟩ : Division)) := by
  simp only [set_divisions_from_keys, DivisionListModel.set_palette, List.length_map,
    List.length_range]
  apply List.map_congr_left
  intro i hi
  have hi2 : i < K.length := List.mem_range.mp hi
  have h1 : ((List.range K.length).map
      (fun j => (⟨K.getD j "", st.palette.color j⟩ : Division))).getD i ⟨"", ""⟩ =
      ⟨K.getD i "", st.palette.color i⟩ := by
    rw [List.getD_eq_getElem]
    · simp
    · simpa using hi2
  rw [h1]

/-- Entries of the color map built after set_divisions_from_keys and
set_palette. -/
theorem entries_after_keys_palette (st : DivisionListModel) (K : List String) (P : Palette) :
    (getColorMap ((set_divisions_from_keys st K).set_palette P)).entries =
      (List.range K.length).map (fun i => (K.getD i "", P.color i)) := by
  show (((set_divisions_from_keys st K).set_palette P).divisions.map
      (fun d => (d.key, d.color))) = _
  rw [divisions_after_keys_palette, List.map_map]
  rfl

/-- The keys of those entries are exactly the key list. -/
theorem entry_keys_eq (K : List String) (P : Palette) :
    ((List.range K.length).map (fun i => (K.getD i "", P.color i))).map Prod.fst = K := by
  rw [List.map_map]
  apply List.ext_getElem
  · simp
  · intro i h1 h2
    simp only [List.getElem_map, List.getElem_range, Function.comp_apply]
    rw [List.getD_eq_getElem _ _ h2]

/-- C2: after set_divisions_from_keys with key list K followed by
set_palette with palette P, the color map is total: every key of K (keys
pairwise distinct) maps to the palette color at its index in K, and every
other key falls back to the palette's default color. -/
theorem get_color_map_total_spec :
    ∀ (st : DivisionListModel) (K : List String) (P : Palette) (k : String),
      K.Nodup →
      (k ∈ K →
        (colorMapLookup (getColorMap ((set_divisions_from_keys st K).set_palette P))
          ((set_divisions_from_keys st K).set_palette P) k).1 = P.color (K.indexOf k)) ∧
      (k ∉ K →
        (colorMapLookup (getColorMap ((set_divisions_from_keys st K).set_palette P))
          ((set_divisions_from_keys st K).set_palette P) k).1 = P.default) := by
  intro st K P k hnd
  have hent := entries_after_keys_palette st K P
  constructor
  · intro hk
    have hidx : K.indexOf k < K.length := List.indexOf_lt_length.mpr hk
    have hmem : (k, P.color (K.indexOf k)) ∈
        (getColorMap ((set_divisions_from_keys st K).set_palette P)).entries := by
      rw [hent]
      refine List.mem_map.mpr ⟨K.indexOf k, List.mem_range.mpr hidx, ?_⟩
      rw [List.getD_eq_getElem _ _ hidx, List.getElem_indexOf hidx]
    have hkeys : ((getColorMap ((set_divisions_from_keys st K).set_palette P)).entries.map
        Prod.fst).Nodup := by
      rw [hent, entry_keys_eq]
      exact hnd
    have hdg := dictGet_nodup_mem _ _ _ hkeys hmem
    simp [colorMapLookup, hdg]
  · intro hk
    have hnone : dictGet
        (getColorMap ((set_divisions_from_keys st K).set_palette P)).entries k = none := by
      apply dictGet_eq_none_of_not_mem
      intro p hp hpk
      rw [hent] at hp
      obtain ⟨i, hi, hpe⟩ := List.mem_map.mp hp
      have hi2 : i < K.length := List.mem_range.mp hi
      apply hk
      rw [← hpk, ← hpe]
      show K.getD i "" ∈ K
      rw [List.getD_eq_getElem _ _ hi2]
      exact List.getElem_mem hi2
    simp only [colorMapLookup, hnone]
    show ((set_divisions_from_keys st K).set_palette P).default_color = P.default
    rfl

/-- Witness for get_color_map_total_spec: keys X and Y with a concrete
palette; Y resolves to the palette color at index 1 and the absent key w to
the palette default. -/
theorem get_color_map_total_spec_witness :
    (colorMapLookup (getColorMap ((set_divisions_from_keys witnessModel ["X", "Y"]).set_palette
        witnessPalette))
      ((set_divisions_from_keys witnessModel ["X", "Y"]).set_palette witnessPalette) "Y").1 =
      "#c10000" ∧
    (colorMapLookup (getColorMap ((set_divisions_from_keys witnessModel ["X", "Y"]).set_palette
        witnessPalette))
      ((set_divisions_from_keys witnessModel ["X", "Y"]).set_palette witnessPalette) "w").1 =
      "#d00000" := by
  constructor
  · have h := (get_color_map_total_spec witnessModel ["X", "Y"] witnessPalette "Y"
      (by decide)).1 (by decide)
    rw [h]
    rfl
  · have h := (get_color_map_total_spec witnessModel ["X", "Y"] witnessPalette "w"
      (by decide)).2 (by decide)
    rw [h]
    rfl

/-- C5: setData accepts a color string with or without the leading marker
(normalizing the marker in after stripping); when the normalized string is
not a valid color the call returns false and performs no mutation (so
zzzzzz is rejected on any state); on success the division's color is updated
and a colorMapChanged notification carrying the new color map is emitted
before the call returns. -/
theorem setData_color_spec :
    (∀ (st : DivisionListModel) (row : Nat) (v : String),
      isValidColorModel (normalizeColor v) = false →
      (setData st row v).ok = false ∧ (setData st row v).model = st ∧
        (setData st row v).emitted = []) ∧
    (∀ c : String, stripString c = c →
      (startsWithHash c = true → normalizeColor c = c) ∧
      (startsWithHash c = false → normalizeColor c = "#" ++ c)) ∧
    (∀ (st : DivisionListModel) (row : Nat),
      (setData st row "zzzzzz").ok = false ∧ (setData st row "zzzzzz").model = st ∧
        (setData st row "zzzzzz").emitted = []) ∧
    (∀ (st : DivisionListModel) (row : Nat) (v : String) (h : row < st.divisions.length),
      isValidColorModel (normalizeColor v) = true →
      (setData st row v).ok = true ∧
      (setData st row v).model.divisions =
        st.divisions.set row { st.divisions.get ⟨row, h⟩ with color := normalizeColor v } ∧
      (setData st row v).model.default_color = st.default_color ∧
      (setData st row v).emitted = [getColorMap (setData st row v).model]) := by
  have hInvalid : ∀ (st : DivisionListModel) (row : Nat) (v : String),
      isValidColorModel (normalizeColor v) = false →
      (setData st row v).ok = false ∧ (setData st row v).model = st ∧
        (setData st row v).emitted = [] := by
    intro st row v hv
    by_cases h : row < st.divisions.length
    · simp [setData, h, hv]
    · simp [setData, h]
  refine ⟨hInvalid, ?_, ?_, ?_⟩
  · intro c hc
    constructor
    · intro hs
      simp [normalizeColor, hc, hs]
    · intro hs
      simp [normalizeColor, hc, hs]
  · intro st row
    exact hInvalid st row "zzzzzz" (by decide)
  · intro st row v h hv
    simp [setData, h, hv]

/-- Witness for setData_color_spec: a one-division model; editing with
ff0000 (marker added by normalization) succeeds and emits the new map,
while zzzzzz is rejected without mutation. -/
theorem setData_color_spec_witness :
    (setData ⟨⟨fun _ => "#000000", "#000001", "#000002"⟩, "#000001", [⟨"X", "#111111"⟩]⟩
        0 "ff0000").ok = true ∧
    (setData ⟨⟨fun _ => "#000000", "#000001", "#000002"⟩, "#000001", [⟨"X", "#111111"⟩]⟩
        0 "ff0000").model.divisions = [⟨"X", "#ff0000"⟩] ∧
    (setData ⟨⟨fun _ => "#000000", "#000001", "#000002"⟩, "#000001", [⟨"X", "#111111"⟩]⟩
        0 "ff0000").emitted =
      [getColorMap (setData ⟨⟨fun _ => "#000000", "#000001", "#000002"⟩, "#000001",
        [⟨"X", "#111111"⟩]⟩ 0 "ff0000").model] ∧
    (setData ⟨⟨fun _ => "#000000", "#000001", "#000002"⟩, "#000001", [⟨"X", "#111111"⟩]⟩
        0 "zzzzzz").ok = false ∧
    (setData ⟨⟨fun _ => "#000000", "#000001", "#000002"⟩, "#000001", [⟨"X", "#111111"⟩]⟩
        0 "zzzzzz").model =
      ⟨⟨fun _ => "#000000", "#000001", "#000002"⟩, "#000001", [⟨"X", "#111111"⟩]⟩ ∧
    normalizeColor "#ff0000" = "#ff0000" := by
  have hs := setData_color_spec.2.2.2
    ⟨⟨fun _ => "#000000", "#000001", "#000002"⟩, "#000001", [⟨"X", "#111111"⟩]⟩
    0 "ff0000" (by decide) (by decide)
  have hz := setData_color_spec.2.2.1
    ⟨⟨fun _ => "#000000", "#000001", "#000002"⟩, "#000001", [⟨"X", "#111111"⟩]⟩ 0
  have hn := (setData_color_spec.2.1 "#ff0000" (by decide)).1 (by decide)
  refine ⟨hs.1, ?_, hs.2.2.2, hz.1, hz.2.1, hn⟩
  rw [hs.2.1]
  rfl

/-- C8 counterexample: the claim says no subsequent resolver mutation changes
any lookup result, including the default fallback, on a color map obtained
earlier; but the defaultdict factory reads the resolver's current default
color, so after a palette swap the same earlier map yields the new default
for a missing key. -/
theorem color_map_live_default_counterexample :
    (colorMapLookup (getColorMap ⟨⟨fun _ => "#000000", "#aaaaaa", "#000002"⟩, "#aaaaaa",
        [⟨"X", "#111111"⟩]⟩)
      ⟨⟨fun _ => "#000000", "#aaaaaa", "#000002"⟩, "#aaaaaa", [⟨"X", "#111111"⟩]⟩ "w").1 =
      "#aaaaaa" ∧
    (colorMapLookup (getColorMap ⟨⟨fun _ => "#000000", "#aaaaaa", "#000002"⟩, "#aaaaaa",
        [⟨"X", "#111111"⟩]⟩)
      (DivisionListModel.set_palette
        ⟨⟨fun _ => "#000000", "#aaaaaa", "#000002"⟩, "#aaaaaa", [⟨"X", "#111111"⟩]⟩
        ⟨fun _ => "#222222", "#bbbbbb", "#000002"⟩) "w").1 = "#bbbbbb" ∧
    ("#aaaaaa" : String) ≠ "#bbbbbb" := by
  exact ⟨rfl, rfl, by decide⟩

/-- C8 amended: a color map is regenerated wholesale from the divisions, and
its explicit entries are a snapshot: a key present in the entries keeps its
color under any later resolver mutation; but the default fallback for a key
not in the entries is read from the resolver's current default color at
lookup time (and then cached into the map), so a later palette swap does
change the default fallback of an earlier map. -/
theorem color_map_snapshot_amended_spec :
    (∀ st : DivisionListModel,
      (getColorMap st).entries = st.divisions.map (fun d => (d.key, d.color))) ∧
    (∀ (cm : ColorMap) (st st2 : DivisionListModel) (k v : String),
      dictGet cm.entries k = some v →
      (colorMapLookup cm st k).1 = v ∧ (colorMapLookup cm st2 k).1 = v) ∧
    (∀ (cm : ColorMap) (st : DivisionListModel) (k : String),
      dictGet cm.entries k = none →
      (colorMapLookup cm st k).1 = st.default_color ∧
      (colorMapLookup cm st k).2.entries = cm.entries ++ [(k, st.default_color)]) := by
  refine ⟨fun st => rfl, ?_, ?_⟩
  · intro cm st st2 k v h
    constructor <;> simp [colorMapLookup, h]
  · intro cm st k h
    constructor <;> simp [colorMapLookup, h]

/-- Witness for color_map_snapshot_amended_spec: a concrete one-entry map;
the present key X is immune to the resolver state passed at lookup, and the
missing key w reads the passed state's default color. -/
theorem color_map_snapshot_amended_spec_witness :
    (colorMapLookup ⟨[("X", "#111111")]⟩ witnessModel "X").1 = "#111111" ∧
    (colorMapLookup ⟨[("X", "#111111")]⟩ witnessModel "w").1 = "#000001" ∧
    (colorMapLookup ⟨[("X", "#111111")]⟩ witnessModel "w").2.entries =
      [("X", "#111111"), ("w", "#000001")] := by
  have h1 := (color_map_snapshot_amended_spec.2.1 ⟨[("X", "#111111")]⟩ witnessModel
    witnessModel "X" "#111111" (by decide)).1
  have h2 := color_map_snapshot_amended_spec.2.2 ⟨[("X", "#111111")]⟩ witnessModel "w"
    (by decide)
  exact ⟨h1, h2.1, h2.2⟩

/-- When the stacking-ordered candidates contain a hit (a vertex, or a label
with labels not ignored), the scan returns the first one, whatever the
closest-edge accumulator holds. -/
theorem hitScan_find_some (il ie : Bool) (pt : Pt) :
    ∀ (items : List SceneItem) (closest : Option (SceneItem × ℚ)) (hitem : SceneItem),
      items.find? (isHit il) = some hitem →
      hitScan il ie pt items closest = some hitem := by
  intro items
  induction items with
  | nil => intro closest hitem h; cases h
  | cons i rest ih =>
    intro closest hitem h
    cases i with
    | vertex v =>
      have hv : isHit il (.vertex v) = true := by simp [isHit, SceneItem.isVertex]
      rw [List.find?_cons_of_pos _ hv] at h
      cases h
      rfl
    | label l =>
      cases hil : il with
      | false =>
        have hv : isHit il (.label l) = true := by
          simp [isHit, SceneItem.isLabel, SceneItem.isVertex, hil]
        rw [List.find?_cons_of_pos _ hv] at h
        cases h
        simp [hitScan, hil]
      | true =>
        have hv : isHit il (.label l) = false := by
          simp [isHit, SceneItem.isLabel, SceneItem.isVertex, hil]
        rw [List.find?_cons_of_neg _ (by simp [hv])] at h
        subst hil
        simpa [hitScan] using ih closest hitem h
    | edge e p1 p2 =>
      have hv : isHit il (.edge e p1 p2) = false := by
        simp [isHit, SceneItem.isLabel, SceneItem.isVertex]
      rw [List.find?_cons_of_neg _ (by simp [hv])] at h
      cases ie with
      | true => simpa [hitScan] using ih closest hitem h
      | false =>
        cases closest with
        | none => simpa [hitScan] using ih _ hitem h
        | some c =>
          cases hc : c with
          | mk cc dc =>
            by_cases hlt : perpDistSq pt p1 p2 < dc
            · simpa [hitScan, hlt] using ih _ hitem h
            · simpa [hitScan, hlt] using ih _ hitem h

/-- Without a hit and with edges ignored, the scan degenerates to the
accumulator. -/
theorem hitScan_no_hit_ignore_edges (il : Bool) (pt : Pt) :
    ∀ (items : List SceneItem) (closest : Option (SceneItem × ℚ)),
      items.find? (isHit il) = none →
      hitScan il true pt items closest = closest.map Prod.fst := by
  intro items
  induction items with
  | nil => intro closest _; rfl
  | cons i rest ih =>
    intro closest h
    rw [List.find?_cons] at h
    cases i with
    | vertex v => simp [isHit, SceneItem.isVertex] at h
    | label l =>
      cases hil : il with
      | false => subst hil; simp [isHit, SceneItem.isLabel, SceneItem.isVertex] at h
      | true =>
        subst hil
        simp only [isHit, SceneItem.isLabel, SceneItem.isVertex] at h
        simpa [hitScan] using ih closest (by simpa using h)
    | edge e p1 p2 =>
      simp only [isHit, SceneItem.isLabel, SceneItem.isVertex] at h
      simpa [hitScan] using ih closest (by simpa using h)

/-- Without a hit and with edges considered, the scan is the edge-candidate
minimization fold. -/
theorem hitScan_no_hit_eq_foldMin (il : Bool) (pt : Pt) :
    ∀ (items : List SceneItem) (closest : Option (SceneItem × ℚ)),
      items.find? (isHit il) = none →
      hitScan il false pt items closest = (foldMin pt items closest).map Prod.fst := by
  intro items
  induction items with
  | nil => intro closest _; rfl
  | cons i rest ih =>
    intro closest h
    rw [List.find?_cons] at h
    cases i with
    | vertex v => simp [isHit, SceneItem.isVertex] at h
    | label l =>
      cases hil : il with
      | false => subst hil; simp [isHit, SceneItem.isLabel, SceneItem.isVertex] at h
      | true =>
        subst hil
        simp only [isHit, SceneItem.isLabel, SceneItem.isVertex] at h
        simpa [hitScan, foldMin] using ih closest (by simpa using h)
    | edge e p1 p2 =>
      simp only [isHit, SceneItem.isLabel, SceneItem.isVertex] at h
      have h2 : rest.find? (isHit il) = none := by simpa using h
      cases closest with
      | none => simpa [hitScan, foldMin] using ih _ h2
      | some c =>
        cases c with
        | mk cc dc =>
          by_cases hlt : perpDistSq pt p1 p2 < dc
          · simpa [hitScan, foldMin, hlt] using ih _ h2
          · simpa [hitScan, foldMin, hlt] using ih _ h2

/-- The minimization fold returns none only from an empty accumulator with
no edge candidate at all. -/
theorem foldMin_eq_none (pt : Pt) :
    ∀ (items : List SceneItem) (acc : Option (SceneItem × ℚ)),
      foldMin pt items acc = none →
      acc = none ∧ ∀ e ∈ items, e.isEdge = false := by
  intro items
  induction items with
  | nil =>
    intro acc h
    exact ⟨h, by simp⟩
  | cons i rest ih =>
    intro acc h
    cases i with
    | vertex v =>
      have := ih acc h
      exact ⟨this.1, by
        intro e he
        rcases List.mem_cons.mp he with rfl | he2
        · rfl
        · exact this.2 e he2⟩
    | label l =>
      have := ih acc h
      exact ⟨this.1, by
        intro e he
        rcases List.mem_cons.mp he with rfl | he2
        · rfl
        · exact this.2 e he2⟩
    | edge e p1 p2 =>
      exfalso
      cases acc with
      | none =>
        simp only [foldMin] at h
        exact Option.noConfusion (ih _ h).1
      | some c =>
        cases c with
        | mk cc dc =>
          simp only [foldMin] at h
          by_cases hlt : perpDistSq pt p1 p2 < dc
          · rw [if_pos hlt] at h
            exact Option.noConfusion (ih _ h).1
          · rw [if_neg hlt] at h
            exact Option.noConfusion (ih _ h).1

/-- A some result of the minimization fold is either the untouched
accumulator or an edge candidate paired with its own distance. -/
theorem foldMin_some_src (pt : Pt) :
    ∀ (items : List SceneItem) (acc : Option (SceneItem × ℚ)) (r : SceneItem) (d : ℚ),
      foldMin pt items acc = some (r, d) →
      acc = some (r, d) ∨ (r ∈ items ∧ r.isEdge = true ∧ d = edist pt r) := by
  intro items
  induction items with
  | nil =>
    intro acc r d h
    exact Or.inl h
  | cons i rest ih =>
    intro acc r d h
    have lift : acc = some (r, d) ∨ (r ∈ rest ∧ r.isEdge = true ∧ d = edist pt r) →
        acc = some (r, d) ∨ (r ∈ i :: rest ∧ r.isEdge = true ∧ d = edist pt r) := by
      rintro (hl | ⟨hm, he, hd⟩)
      · exact Or.inl hl
      · exact Or.inr ⟨List.mem_cons_of_mem i hm, he, hd⟩
    cases i with
    | vertex v => exact lift (ih acc r d h)
    | label l => exact lift (ih acc r d h)
    | edge e p1 p2 =>
      have hedge : ∀ acc2 : Option (SceneItem × ℚ),
          acc2 = some (.edge e p1 p2, perpDistSq pt p1 p2) →
          foldMin pt rest acc2 = some (r, d) →
          acc = some (r, d) ∨ (r ∈ .edge e p1 p2 :: rest ∧ r.isEdge = true ∧ d = edist pt r) := by
        intro acc2 hacc2 hrun
        rcases ih acc2 r d hrun with hl | hr
        · rw [hacc2] at hl
          cases hl
          exact Or.inr ⟨List.mem_cons_self _ _, rfl, rfl⟩
        · exact Or.inr ⟨List.mem_cons_of_mem _ hr.1, hr.2.1, hr.2.2⟩
      cases acc with
      | none =>
        simp only [foldMin] at h
        exact hedge _ rfl h
      | some c =>
        cases c with
        | mk cc dc =>
          simp only [foldMin] at h
          by_cases hlt : perpDistSq pt p1 p2 < dc
          · rw [if_pos hlt] at h
            exact hedge _ rfl h
          · rw [if_neg hlt] at h
            exact lift (ih _ r d h)

/-- The distance produced by the minimization fold is a lower bound for the
accumulator's distance and for the distance of every edge candidate. -/
theorem foldMin_min (pt : Pt) :
    ∀ (items : List SceneItem) (acc : Option (SceneItem × ℚ)) (r : SceneItem) (d : ℚ),
      foldMin pt items acc = some (r, d) →
      (∀ (c : SceneItem) (dc : ℚ), acc = some (c, dc) → d ≤ dc) ∧
      (∀ e ∈ items, e.isEdge = true → d ≤ edist pt e) := by
  intro items
  induction items with
  | nil =>
    intro acc r d h
    refine ⟨?_, by simp⟩
    intro c dc hacc
    rw [hacc] at h
    cases h
    rfl
  | cons i rest ih =>
    intro acc r d h
    have skip : (∀ (c : SceneItem) (dc : ℚ), acc = some (c, dc) → d ≤ dc) →
        i.isEdge = false →
        (∀ e ∈ rest, e.isEdge = true → d ≤ edist pt e) →
        (∀ e ∈ i :: rest, e.isEdge = true → d ≤ edist pt e) := by
      intro hacc hie hrest e he hee
      rcases List.mem_cons.mp he with rfl | he2
      · rw [hie] at hee; cases hee
      · exact hrest e he2 hee
    cases i with
    | vertex v =>
      have := ih acc r d h
      exact ⟨this.1, skip this.1 rfl this.2⟩
    | label l =>
      have := ih acc r d h
      exact ⟨this.1, skip this.1 rfl this.2⟩
    | edge e p1 p2 =>
      cases acc with
      | none =>
        simp only [foldMin] at h
        have := ih _ r d h
        have hd : d ≤ perpDistSq pt p1 p2 := this.1 _ _ rfl
        refine ⟨?_, ?_⟩
        · intro c dc hacc
          cases hacc
        intro e2 he2 hee2
        rcases List.mem_cons.mp he2 with rfl | hm
        · simpa [edist] using hd
        · exact this.2 e2 hm hee2
      | some c =>
        cases c with
        | mk cc dc0 =>
          simp only [foldMin] at h
          by_cases hlt : perpDistSq pt p1 p2 < dc0
          · rw [if_pos hlt] at h
            have := ih _ r d h
            have hd : d ≤ perpDistSq pt p1 p2 := this.1 _ _ rfl
            refine ⟨?_, ?_⟩
            · intro c2 dc2 hacc
              cases hacc
              exact le_trans hd (le_of_lt hlt)
            · intro e2 he2 hee2
              rcases List.mem_cons.mp he2 with rfl | hm
              · simpa [edist] using hd
              · exact this.2 e2 hm hee2
          · rw [if_neg hlt] at h
            have := ih _ r d h
            have hd : d ≤ dc0 := this.1 _ _ rfl
            refine ⟨?_, ?_⟩
            · intro c2 dc2 hacc
              cases hacc
              exact hd
            · intro e2 he2 hee2
              rcases List.mem_cons.mp he2 with rfl | hm
              · have hge : dc0 ≤ perpDistSq pt p1 p2 := le_of_not_lt hlt
                simpa [edist] using le_trans hd hge
              · exact this.2 e2 hm hee2

/-- C1: getItemAtPos examines the stacking-ordered candidates top-most
first; a missing ignore_labels argument defaults to the negation of the
label-movement setting; the first vertex, or first label when labels are not
ignored, is returned immediately (so any such item beats every edge); when
edges are not ignored and no vertex or label was returned, the returned item
is an edge candidate minimizing the squared perpendicular distance to the
edge's infinite line through its two mapped endpoints (squaring preserves
every comparison, distances being nonnegative); when edges are ignored, or no
edge is among the candidates (all edges farther than the near distance encoded
by candidate membership), nothing is returned. -/
theorem getItemAtPos_order_spec :
    ∀ (lm : Bool) (pt : Pt) (items : List SceneItem) (ie il : Bool),
      (getItemAtPos lm pt items ie none = getItemAtPos lm pt items ie (some (!lm))) ∧
      (∀ hitem : SceneItem, items.find? (isHit il) = some hitem →
        getItemAtPos lm pt items ie (some il) = some hitem) ∧
      (items.find? (isHit il) = none →
        getItemAtPos lm pt items true (some il) = none) ∧
      (items.find? (isHit il) = none → (∀ e ∈ items, e.isEdge = false) →
        getItemAtPos lm pt items false (some il) = none) ∧
      (items.find? (isHit il) = none →
        (∀ (i : Nat) (p1 p2 : Pt), SceneItem.edge i p1 p2 ∈ items → p1 ≠ p2) →
        ∀ e0 ∈ items, e0.isEdge = true →
        ∃ r : SceneItem, getItemAtPos lm pt items false (some il) = some r ∧
          r.isEdge = true ∧ r ∈ items ∧
          ∀ e ∈ items, e.isEdge = true → edist pt r ≤ edist pt e) := by
  intro lm pt items ie il
  refine ⟨rfl, ?_, ?_, ?_, ?_⟩
  · intro hitem h
    exact hitScan_find_some il ie pt items none hitem h
  · intro h
    exact hitScan_no_hit_ignore_edges il pt items none h
  · intro h hne
    rw [show getItemAtPos lm pt items false (some il) = hitScan il false pt items none from rfl,
      hitScan_no_hit_eq_foldMin il pt items none h]
    have : foldMin pt items none = none := by
      cases hf : foldMin pt items none with
      | none => rfl
      | some c =>
        cases c with
        | mk r d =>
          rcases foldMin_some_src pt items none r d hf with hl | hr
          · cases hl
          · rw [hne r hr.1] at hr
            cases hr.2.1
    rw [this]
    rfl
  · intro h _ e0 he0 hee0
    rw [show getItemAtPos lm pt items false (some il) = hitScan il false pt items none from rfl,
      hitScan_no_hit_eq_foldMin il pt items none h]
    cases hf : foldMin pt items none with
    | none =>
      exfalso
      have := (foldMin_eq_none pt items none hf).2 e0 he0
      rw [hee0] at this
      cases this
    | some c =>
      cases c with
      | mk r d =>
        rcases foldMin_some_src pt items none r d hf with hl | hr
        · cases hl
        · refine ⟨r, rfl, hr.2.1, hr.1, ?_⟩
          intro e he hee
          have := (foldMin_min pt items none r d hf).2 e he hee
          rw [hr.2.2] at this
          exact this

/-- Witness for getItemAtPos_order_spec: at the origin, a scene listing an
edge above a vertex still returns the vertex, and a scene of two horizontal
edges at heights 1 and 3 returns the nearer edge. -/
theorem getItemAtPos_order_spec_witness :
    getItemAtPos false ⟨0, 0⟩ [.edge 0 ⟨0, 1⟩ ⟨1, 1⟩, .vertex 1] false (some true) =
      some (.vertex 1) ∧
    getItemAtPos false ⟨0, 0⟩ [.edge 0 ⟨0, 1⟩ ⟨1, 1⟩, .edge 1 ⟨0, 3⟩ ⟨1, 3⟩] false (some true) =
      some (.edge 0 ⟨0, 1⟩ ⟨1, 1⟩) ∧
    edist ⟨0, 0⟩ (.edge 0 ⟨0, 1⟩ ⟨1, 1⟩) ≤ edist ⟨0, 0⟩ (.edge 1 ⟨0, 3⟩ ⟨1, 3⟩) := by
  have h1 := (getItemAtPos_order_spec false ⟨0, 0⟩ [.edge 0 ⟨0, 1⟩ ⟨1, 1⟩, .vertex 1]
    false true).2.1 (.vertex 1) (by decide)
  have hnd : ∀ (i : Nat) (p1 p2 : Pt),
      SceneItem.edge i p1 p2 ∈ [SceneItem.edge 0 ⟨0, 1⟩ ⟨1, 1⟩, SceneItem.edge 1 ⟨0, 3⟩ ⟨1, 3⟩] →
      p1 ≠ p2 := by
    intro i p1 p2 hmem
    rcases List.mem_cons.mp hmem with he | hmem2
    · cases he; decide
    · rcases List.mem_cons.mp hmem2 with he | hmem3
      · cases he; decide
      · cases hmem3
  obtain ⟨r, hr1, _, _, hr4⟩ := (getItemAtPos_order_spec false ⟨0, 0⟩
    [.edge 0 ⟨0, 1⟩ ⟨1, 1⟩, .edge 1 ⟨0, 3⟩ ⟨1, 3⟩] false true).2.2.2.2
    (by decide) hnd (.edge 0 ⟨0, 1⟩ ⟨1, 1⟩) (by decide) (by decide)
  have hval : getItemAtPos false ⟨0, 0⟩ [.edge 0 ⟨0, 1⟩ ⟨1, 1⟩, .edge 1 ⟨0, 3⟩ ⟨1, 3⟩]
      false (some true) = some (.edge 0 ⟨0, 1⟩ ⟨1, 1⟩) := by
    norm_num [getItemAtPos, hitScan, perpDistSq]
  have hreq : r = .edge 0 ⟨0, 1⟩ ⟨1, 1⟩ := by
    rw [hval] at hr1
    exact (Option.some_injective _ hr1).symm
  refine ⟨h1, hval, ?_⟩
  have := hr4 (.edge 1 ⟨0, 3⟩ ⟨1, 3⟩) (by decide) (by decide)
  rw [hreq] at this
  exact this

/-- Scene.set_highlighted_edge preserves the tie between the per-edge
state_highlighted flags and the lighlighted_edge attribute. -/
theorem set_highlighted_edge_inv (st : DemoScene) (edge : Option Nat) :
    edgeFlagInv st → edgeFlagInv (set_highlighted_edge st edge) := by
  intro h e
  have hf1 : (match st.highlighted with
      | some old => if e = old then false else st.edgeFlag e
      | none => st.edgeFlag e) = false := by
    cases hH : st.highlighted with
    | none =>
      have he := h e
      rw [hH] at he
      simp only [reduceCtorEq, iff_false] at he
      simpa using he
    | some old =>
      by_cases heo : e = old
      · simp [heo]
      · have he := h e
        rw [hH] at he
        simp only [Option.some_inj] at he
        have hb : st.edgeFlag e = false := by
          rcases Bool.eq_false_or_eq_true (st.edgeFlag e) with hb | hb
          · exact absurd (he.mp hb).symm heo
          · exact hb
        simp [heo, hb]
  cases edge with
  | none =>
    show (match st.highlighted with
        | some old => if e = old then false else st.edgeFlag e
        | none => st.edgeFlag e) = true ↔ (none : Option Nat) = some e
    rw [hf1]
    simp
  | some nw =>
    show (if e = nw then true
        else match st.highlighted with
          | some old => if e = old then false else st.edgeFlag e
          | none => st.edgeFlag e) = true ↔ some nw = some e
    by_cases he : e = nw
    · rw [if_pos he]
      simp [he]
    · rw [if_neg he, hf1]
      exact iff_of_false (by simp) (fun hh => he (Option.some_inj.mp hh).symm)

/-- Each demo-scene transition preserves the highlight-flag invariant. -/
theorem demoStepRun_inv (env : ItemEnv) (st : DemoScene) (s : DemoStep) :
    edgeFlagInv st → edgeFlagInv (demoStepRun env st s) := by
  intro h
  cases s with
  | hover item =>
    show edgeFlagInv (set_hovered_item env st item)
    by_cases hp : ({ st with hovered := item } : DemoScene).pressed = none
    · rw [set_hovered_item, if_pos hp]
      exact set_highlighted_edge_inv _ _ (fun e => h e)
    · rw [set_hovered_item, if_neg hp]
      exact fun e => h e
  | press item =>
    exact set_highlighted_edge_inv _ _ (fun e => h e)

/-- Any run of demo-scene transitions preserves the highlight-flag
invariant. -/
theorem demoRun_inv (env : ItemEnv) :
    ∀ (steps : List DemoStep) (st : DemoScene),
      edgeFlagInv st → edgeFlagInv (demoRun env st steps) := by
  intro steps
  induction steps with
  | nil => exact fun st h => h
  | cons s rest ih =>
    intro st h
    exact ih _ (demoStepRun_inv env st s h)

/-- C9 counterexample: the claim derives the highlighted edge from the
pressed item or else the hovered item in every reachable state; but after
hovering child vertex 0 (highlighting its tree edge 7), pressing it and
releasing (set_pressed_item None), the code re-derives the highlight from
None even though vertex 0 is still hovered and still resolves to edge 7, so
the reachable state has a hovered child, no pressed item and no highlighted
edge. -/
theorem demo_highlight_release_counterexample :
    (demoRun demoEnv demoInit [.hover (some 0), .press (some 0), .press none]).hovered =
      some 0 ∧
    (demoRun demoEnv demoInit [.hover (some 0), .press (some 0), .press none]).pressed =
      none ∧
    get_item_edge demoEnv (some 0) = some 7 ∧
    (demoRun demoEnv demoInit [.hover (some 0), .press (some 0), .press none]).highlighted =
      none := by
  exact ⟨rfl, rfl, rfl, rfl⟩

/-- C9 amended: at most one edge is highlighted in any reachable state (the
per-edge flags always match the single lighlighted_edge attribute, which is
only ever written through the derivation set_highlighted_edge of the two
setters, never independently); after set_pressed_item the highlight is
derived from the new pressed item (even when it is None, as on release, so
the highlight is then cleared even while a hovered child remains); after
set_hovered_item the highlight is derived from the new hovered item exactly
when no item is pressed, and is left unchanged when an item is pressed. -/
theorem demo_highlight_derivation_spec :
    (∀ (env : ItemEnv) (steps : List DemoStep) (e : Nat),
      (demoRun env demoInit steps).edgeFlag e = true ↔
        (demoRun env demoInit steps).highlighted = some e) ∧
    (∀ (env : ItemEnv) (steps : List DemoStep) (e1 e2 : Nat),
      (demoRun env demoInit steps).edgeFlag e1 = true →
      (demoRun env demoInit steps).edgeFlag e2 = true → e1 = e2) ∧
    (∀ (env : ItemEnv) (st : DemoScene) (item : Option Nat),
      (set_pressed_item env st item).pressed = item ∧
      (set_pressed_item env st item).hovered = st.hovered ∧
      (set_pressed_item env st item).highlighted = get_item_edge env item) ∧
    (∀ (env : ItemEnv) (st : DemoScene) (item : Option Nat),
      st.pressed = none →
      (set_hovered_item env st item).hovered = item ∧
      (set_hovered_item env st item).highlighted = get_item_edge env item) ∧
    (∀ (env : ItemEnv) (st : DemoScene) (item : Option Nat) (x : Nat),
      st.pressed = some x →
      (set_hovered_item env st item).hovered = item ∧
      (set_hovered_item env st item).highlighted = st.highlighted) := by
  have hinv : ∀ (env : ItemEnv) (steps : List DemoStep),
      edgeFlagInv (demoRun env demoInit steps) := by
    intro env steps
    exact demoRun_inv env steps demoInit (fun e => by simp [demoInit])
  refine ⟨fun env steps e => hinv env steps e, ?_, ?_, ?_, ?_⟩
  · intro env steps e1 e2 h1 h2
    have k1 := (hinv env steps e1).mp h1
    have k2 := (hinv env steps e2).mp h2
    rw [k1] at k2
    exact Option.some_inj.mp k2
  · intro env st item
    exact ⟨rfl, rfl, rfl⟩
  · intro env st item hp
    have hp2 : ({ st with hovered := item } : DemoScene).pressed = none := hp
    rw [set_hovered_item, if_pos hp2]
    exact ⟨rfl, rfl⟩
  · intro env st item x hp
    have hp2 : ({ st with hovered := item } : DemoScene).pressed = some x := hp
    rw [set_hovered_item, if_neg (by rw [hp2]; exact Option.noConfusion)]
    exact ⟨rfl, rfl⟩

/-- Witness for demo_highlight_derivation_spec: in the concrete environment,
hovering child vertex 0 from the initial state derives highlighted edge 7
and satisfies the flag invariant; hovering while item 5 is pressed leaves
the highlight unchanged. -/
theorem demo_highlight_derivation_spec_witness :
    ((demoRun demoEnv demoInit [.hover (some 0)]).edgeFlag 7 = true ↔
      (demoRun demoEnv demoInit [.hover (some 0)]).highlighted = some 7) ∧
    (set_hovered_item demoEnv demoInit (some 0)).highlighted =
      get_item_edge demoEnv (some 0) ∧
    (set_hovered_item demoEnv { demoInit with pressed := some 5 } (some 0)).highlighted =
      ({ demoInit with pressed := some 5 } : DemoScene).highlighted ∧
    (set_pressed_item demoEnv demoInit (some 0)).highlighted =
      get_item_edge demoEnv (some 0) := by
  refine ⟨demo_highlight_derivation_spec.1 demoEnv [.hover (some 0)] 7,
    (demo_highlight_derivation_spec.2.2.2.1 demoEnv demoInit (some 0) rfl).2,
    (demo_highlight_derivation_spec.2.2.2.2 demoEnv
      { demoInit with pressed := some 5 } (some 0) 5 rfl).2,
    (demo_highlight_derivation_spec.2.2.1 demoEnv demoInit (some 0)).2.2⟩

end Haplodemo
